import Mathlib

/-!
Shallow embedding of `src/famtree/core.py`, the core family-tree graph model.

Modelling conventions:
* `uuid.UUID` identifiers are modelled as natural numbers; the fresh value
  produced by `uuid4()` inside an operation is passed in as an explicit
  `fresh` argument (the source guarantees only that it is globally fresh).
* Python `dict`s are insertion-ordered association lists with the
  `d[k] = v` update semantics: overwrite in place when the key exists,
  append at the end when it is new.
* The Python `set` of edges is a duplicate-free list; `set.add` inserts
  only when the element is absent.
* Mutating methods become functions returning the new `FamilyTree`
  (paired with the source's return value where it has one).
-/

namespace Famtree

/-- `Gender(StrEnum)` with values `"male"`, `"female"`, `"other"`.
Every value is a nonempty string, hence truthy in Python. -/
inductive Gender where
  | MALE
  | FEMALE
  | OTHER
deriving DecidableEq, Repr

/-- `class Person(BaseModel)`: name, gender, birth_year, optional death_year. -/
structure Person where
  name : String
  gender : Gender
  birth_year : Int
  death_year : Option Int
deriving DecidableEq, Repr

/-- `class Marriage(BaseModel)`: a node carrying only a list of child ids. -/
structure Marriage where
  children : List Nat
deriving DecidableEq, Repr

/-- `class Edge(BaseModel)`: a directed (source, target) pair; equality and
hashing are structural on the ordered pair. -/
structure Edge where
  source : Nat
  target : Nat
deriving DecidableEq, Repr

/-- `type _Node = Person | Marriage`. -/
inductive Node where
  | person (p : Person)
  | marriage (m : Marriage)
deriving DecidableEq, Repr

/-- Python `k in d` on a dict. -/
def dictHasKey (l : List (Nat × α)) (k : Nat) : Bool :=
  l.any (fun kv => kv.1 == k)

/-- Python `d[k]` / `d.get(k)`: first (unique, for genuine dicts) value at key. -/
def dictLookup (l : List (Nat × α)) (k : Nat) : Option α :=
  (l.find? (fun kv => kv.1 == k)).map (fun kv => kv.2)

/-- Python `d[k] = v`: overwrite in place when present, append when new. -/
def dictSet (l : List (Nat × α)) (k : Nat) (v : α) : List (Nat × α) :=
  if dictHasKey l k then l.map (fun kv => if kv.1 = k then (k, v) else kv)
  else l ++ [(k, v)]

/-- Python `del d[k]`. -/
def dictErase (l : List (Nat × α)) (k : Nat) : List (Nat × α) :=
  l.filter (fun kv => kv.1 != k)

/-- Assign every entry of `r` into `l` in order: the semantics of both
`{**l, **r}` and `for k, v in r.items(): l[k] = v`. -/
def dictMerge (l r : List (Nat × α)) : List (Nat × α) :=
  r.foldl (fun acc kv => dictSet acc kv.1 kv.2) l

/-- Python `set.add` on the edge set. -/
def edgeInsert (es : List Edge) (e : Edge) : List Edge :=
  if e ∈ es then es else es ++ [e]

/-- `class FamilyTree(BaseModel)`: people, marriages, edges. -/
structure FamilyTree where
  people : List (Nat × Person)
  marriages : List (Nat × Marriage)
  edges : List Edge
deriving DecidableEq, Repr

/-- Property `nodes`: `{**self.people, **self.marriages}`. -/
def FamilyTree.nodes (t : FamilyTree) : List (Nat × Node) :=
  dictMerge (t.people.map (fun kp => (kp.1, Node.person kp.2)))
    (t.marriages.map (fun km => (km.1, Node.marriage km.2)))

/-- The undirected adjacency view built inside `connected`: every stored edge
in both directions, plus every marriage→child link (from the marriages seen
in `nodes`) in both directions.  The source stores neighbours in a set;
duplicates in this list are harmless because the traversal skips visited ids. -/
def FamilyTree.neighbors (t : FamilyTree) (x : Nat) : List Nat :=
  (t.edges.filterMap (fun e => if e.source = x then some e.target else none)) ++
    (t.edges.filterMap (fun e => if e.target = x then some e.source else none)) ++
    (t.nodes.flatMap (fun kn =>
      match kn.2 with
      | Node.marriage m =>
          (if kn.1 = x then m.children else []) ++
            (m.children.filterMap (fun c => if c = x then some kn.1 else none))
      | Node.person _ => []))

/-- Every identifier mentioned anywhere in the graph (deduplicated). -/
def FamilyTree.allIds (t : FamilyTree) : List Nat :=
  ((t.nodes.map Prod.fst) ++ t.edges.flatMap (fun e => [e.source, e.target]) ++
    t.marriages.flatMap (fun km => km.2.children)).dedup

/-- Fuel bounding the number of traversal steps: the initial push plus one
per adjacency-list entry of any id, which dominates the total number of
stack pops the recursive Python `dfs` can perform. -/
def FamilyTree.fuelBound (t : FamilyTree) : Nat :=
  1 + (t.allIds.map (fun x => (t.neighbors x).length)).sum

/-- The `dfs` traversal of `connected`, as an explicit work-list loop:
pop an id, skip it when already visited, otherwise record it and push its
neighbours.  Computes the same visited set as the recursive Python `dfs`. -/
def reach (adj : Nat → List Nat) : Nat → List Nat → List Nat → List Nat
  | 0, _, visited => visited
  | _ + 1, [], visited => visited
  | f + 1, x :: stack, visited =>
    if x ∈ visited then reach adj f stack visited
    else reach adj f (adj x ++ stack) (visited ++ [x])

/-- The `visited` set computed by `connected`'s traversal, started (like
`next(iter(self.nodes))`) from the first key of `nodes`. -/
def FamilyTree.visitedList (t : FamilyTree) : List Nat :=
  match t.nodes with
  | [] => []
  | kn :: _ => reach t.neighbors t.fuelBound [kn.1] []

/-- Property `connected`: vacuously true on the empty node set, otherwise
`len(visited) == len(self.nodes)`. -/
def FamilyTree.connected (t : FamilyTree) : Bool :=
  match t.nodes with
  | [] => true
  | _ => t.visitedList.length == t.nodes.length

/-- The sort key of `FamilyTree.sort`, read off the source's `key` lambda:
`(gender != MALE, gender != FEMALE, birth_year, name)` compared
lexicographically (Python tuple comparison, `False < True`). -/
def sortKey (p : Person) : Lex (Bool × Lex (Bool × Lex (Int × String))) :=
  toLex (decide (p.gender ≠ Gender.MALE),
    toLex (decide (p.gender ≠ Gender.FEMALE), toLex (p.birth_year, p.name)))

/-- Comparison used to sort the `(id, person)` items. -/
def sortLe (a b : Nat × Person) : Prop :=
  sortKey a.2 ≤ sortKey b.2

instance : DecidableRel sortLe :=
  fun a b => inferInstanceAs (Decidable (sortKey a.2 ≤ sortKey b.2))

instance : IsTotal (Nat × Person) sortLe :=
  ⟨fun a b => le_total (sortKey a.2) (sortKey b.2)⟩

instance : IsTrans (Nat × Person) sortLe :=
  ⟨fun _ _ _ h1 h2 => le_trans h1 h2⟩

/-- `FamilyTree.sort`: rebuild the people dict from its items sorted stably
by `sortKey` (Python's `sorted` is a stable sort; `insertionSort` is the
stable sort used for the embedding). -/
def FamilyTree.sort (t : FamilyTree) : FamilyTree :=
  { t with people := t.people.insertionSort sortLe }

/-- Exact four-field match used by `create_person`'s deduplication scan. -/
def personMatches (name : String) (gender : Gender) (birth_year : Int)
    (death_year : Option Int) (p : Person) : Bool :=
  decide (p.name = name ∧ p.gender = gender ∧ p.birth_year = birth_year ∧
    p.death_year = death_year)

/-- `FamilyTree.create_person`: return the first exact-duplicate person if one
exists, otherwise insert a new person under the fresh id. -/
def FamilyTree.create_person (t : FamilyTree) (name : String) (gender : Gender)
    (birth_year : Int) (death_year : Option Int) (fresh : Nat) :
    FamilyTree × Person :=
  match t.people.find? (fun kp => personMatches name gender birth_year death_year kp.2) with
  | some kp => (t, kp.2)
  | none =>
    let p : Person := ⟨name, gender, birth_year, death_year⟩
    ({ t with people := dictSet t.people fresh p }, p)

/-- Error outcomes of the source: `ValueError("Person not found")` /
`ValueError("Node not found")` (NotFound), `ValueError("Multiple people
found, ...")` (AmbiguousMatch), and the uncaught `KeyError` from
`self.people[person_id]` on an unknown explicit id. -/
inductive Err where
  | NotFound
  | AmbiguousMatch
  | KeyError
deriving DecidableEq, Repr

/-- Python `gender or person.gender` with `gender : Gender | None`: `None` is
falsy; every `Gender` value is a nonempty string, hence truthy. -/
def orFalsyGender (v : Option Gender) (old : Gender) : Gender :=
  match v with
  | none => old
  | some g => g

/-- Python `birth_year or person.birth_year` with `birth_year : int | None`:
`None` and `0` are falsy. -/
def orFalsyInt (v : Option Int) (old : Int) : Int :=
  match v with
  | none => old
  | some x => if x = 0 then old else x

/-- Python `death_year or person.death_year` with both sides `int | None`. -/
def orFalsyOptInt (v : Option Int) (old : Option Int) : Option Int :=
  match v with
  | none => old
  | some x => if x = 0 then old else some x

/-- The three field assignments shared by both branches of `update_person`. -/
def updateFields (p : Person) (gender : Option Gender) (birth_year : Option Int)
    (death_year : Option Int) : Person :=
  { p with
    gender := orFalsyGender gender p.gender
    birth_year := orFalsyInt birth_year p.birth_year
    death_year := orFalsyOptInt death_year p.death_year }

/-- `FamilyTree.update_person`.  `if person_id:` takes the id branch exactly
when `person_id` is not `None` (a `UUID` object is always truthy); there
`self.people[person_id]` raises `KeyError` on an unknown id.  Without an id,
the target is resolved by exact name match over the people values. -/
def FamilyTree.update_person (t : FamilyTree) (name : String)
    (gender : Option Gender) (birth_year : Option Int) (death_year : Option Int)
    (person_id : Option Nat) : Except Err (FamilyTree × Person) :=
  match person_id with
  | some pid =>
    match dictLookup t.people pid with
    | none => Except.error Err.KeyError
    | some p =>
      let p2 := updateFields p gender birth_year death_year
      Except.ok ({ t with people := dictSet t.people pid p2 }, p2)
  | none =>
    match t.people.filter (fun kp => kp.2.name == name) with
    | [] => Except.error Err.NotFound
    | [kp] =>
      let p2 := updateFields kp.2 gender birth_year death_year
      Except.ok ({ t with people := dictSet t.people kp.1 p2 }, p2)
    | _ :: _ :: _ => Except.error Err.AmbiguousMatch

/-- `FamilyTree.create_marriage`: new marriage node under a fresh id with
`children or []`, plus the two spouse→marriage edges.  No validation of the
spouse or child identifiers. -/
def FamilyTree.create_marriage (t : FamilyTree) (spouse1_id spouse2_id : Nat)
    (children : Option (List Nat)) (fresh : Nat) : FamilyTree × Marriage :=
  let marriage : Marriage := ⟨children.getD []⟩
  let t1 := { t with marriages := dictSet t.marriages fresh marriage }
  let t2 := { t1 with
    edges := edgeInsert (edgeInsert t1.edges ⟨spouse1_id, fresh⟩) ⟨spouse2_id, fresh⟩ }
  (t2, marriage)

/-- The `spouseN_marriages` comprehension of `update_marriage`: targets of
edges leaving `sid` that are marriage keys. -/
def spouseMarriages (t : FamilyTree) (sid : Nat) : List Nat :=
  t.edges.filterMap (fun e =>
    if e.source == sid && dictHasKey t.marriages e.target then some e.target
    else none)

/-- `FamilyTree.update_marriage`.  The source's `for marriage in
self.marriages.values():` loop returns during its first iteration (both the
matched and the unmatched branch return), so only the first marriage entry
matters.  Inside the loop, `next((marriage for marriage_id in
spouse1_marriages if marriage_id in spouse2_marriages), None)` yields the
enclosing loop variable `marriage` — the first marriage in dict order — not
the marriage named by `marriage_id`; the generator's own variable is
`marriage_id`, so `marriage` is captured from the enclosing scope.  Hence,
whenever the two spouses share any marriage, the children of the *first*
stored marriage are replaced and that first marriage is returned. -/
def FamilyTree.update_marriage (t : FamilyTree) (spouse1_id spouse2_id : Nat)
    (children : Option (List Nat)) : FamilyTree × Option Marriage :=
  match t.marriages with
  | [] => (t, none)
  | (mid0, _) :: _ =>
    let spouse1_marriages := spouseMarriages t spouse1_id
    let spouse2_marriages := spouseMarriages t spouse2_id
    if spouse1_marriages.any (fun mid => decide (mid ∈ spouse2_marriages)) then
      let matched : Marriage := ⟨children.getD []⟩
      ({ t with marriages := dictSet t.marriages mid0 matched }, some matched)
    else (t, none)

/-- The two pruning passes `delete_node` runs after removing the node:
drop every edge touching the deleted id, and drop the deleted id from every
remaining marriage's children. -/
def pruneAfterDelete (t : FamilyTree) (node_id : Nat) : FamilyTree :=
  { t with
    edges := t.edges.filter (fun e => decide (¬(node_id = e.source ∨ node_id = e.target)))
    marriages := t.marriages.map (fun km =>
      (km.1, ⟨km.2.children.filter (fun c => c != node_id)⟩)) }

/-- `FamilyTree.delete_node`: remove from people, else from marriages, else
raise NotFound; then prune referencing edges and child lists. -/
def FamilyTree.delete_node (t : FamilyTree) (node_id : Nat) :
    Except Err FamilyTree :=
  if dictHasKey t.people node_id then
    Except.ok (pruneAfterDelete { t with people := dictErase t.people node_id } node_id)
  else if dictHasKey t.marriages node_id then
    Except.ok (pruneAfterDelete { t with marriages := dictErase t.marriages node_id } node_id)
  else Except.error Err.NotFound

/-- `FamilyTree.merge`: assign every person and marriage of `other` into the
receiver (last write wins on colliding ids) and union the edge sets. -/
def FamilyTree.merge (t other : FamilyTree) : FamilyTree :=
  { people := dictMerge t.people other.people
    marriages := dictMerge t.marriages other.marriages
    edges := other.edges.foldl edgeInsert t.edges }

/-! ### Basic lemmas about the dictionary and set embeddings -/

/-- The key list of an association-list dictionary. -/
def keysOf (l : List (Nat × α)) : List Nat :=
  l.map Prod.fst

theorem dictHasKey_iff {l : List (Nat × α)} {k : Nat} :
    dictHasKey l k = true ↔ k ∈ keysOf l := by
  simp only [dictHasKey, List.any_eq_true, beq_iff_eq, keysOf, List.mem_map]

theorem dictHasKey_eq_false_iff {l : List (Nat × α)} {k : Nat} :
    dictHasKey l k = false ↔ k ∉ keysOf l := by
  rw [← dictHasKey_iff]
  cases h : dictHasKey l k <;> simp

theorem dictLookup_nil (k : Nat) : dictLookup ([] : List (Nat × α)) k = none :=
  rfl

theorem dictLookup_cons (x : Nat × α) (l : List (Nat × α)) (k : Nat) :
    dictLookup (x :: l) k = if x.1 = k then some x.2 else dictLookup l k := by
  by_cases h : x.1 = k
  · have hb : (x.1 == k) = true := by simp [h]
    simp [dictLookup, List.find?, hb, h]
  · have hb : (x.1 == k) = false := by simp [h]
    simp [dictLookup, List.find?, hb, h]

theorem dictLookup_map_setKey_ne {l : List (Nat × α)} {k k' : Nat} {v : α}
    (h : k' ≠ k) :
    dictLookup (l.map (fun kv => if kv.1 = k then (k, v) else kv)) k' =
      dictLookup l k' := by
  induction l with
  | nil => rfl
  | cons x l ih =>
    by_cases hx : x.1 = k
    · rw [List.map_cons, if_pos hx, dictLookup_cons, dictLookup_cons]
      simp only [if_neg (Ne.symm h), if_neg (hx ▸ Ne.symm h)]
      exact ih
    · rw [List.map_cons, if_neg hx, dictLookup_cons, dictLookup_cons]
      by_cases hx' : x.1 = k'
      · simp [hx']
      · simp only [if_neg hx']
        exact ih

theorem dictSet_cons_ne (x : Nat × α) (l : List (Nat × α)) (k : Nat) (v : α)
    (hx : x.1 ≠ k) :
    dictSet (x :: l) k v = x :: dictSet l k v := by
  by_cases hl : dictHasKey l k = true
  · have hk : dictHasKey (x :: l) k = true := by
      simp only [dictHasKey, List.any_cons] at hl ⊢
      simp [hl]
    simp [dictSet, hk, hl, if_neg hx]
  · have hk : dictHasKey (x :: l) k = false := by
      simp only [dictHasKey, List.any_cons] at hl ⊢
      simp only [Bool.eq_false_iff] at hl ⊢
      simp [hx, hl]
    simp [dictSet, hk, hl]

theorem dictLookup_dictSet (l : List (Nat × α)) (k : Nat) (v : α) (k' : Nat) :
    dictLookup (dictSet l k v) k' = if k' = k then some v else dictLookup l k' := by
  induction l with
  | nil =>
    have : dictSet ([] : List (Nat × α)) k v = [(k, v)] := by
      simp [dictSet, dictHasKey]
    rw [this, dictLookup_cons]
    by_cases h : k' = k <;> simp [h, Ne.symm]
  | cons x l ih =>
    by_cases hx : x.1 = k
    · have hk : dictHasKey (x :: l) k = true := by
        simp [dictHasKey, hx]
      have hfx : (if x.1 = k then (k, v) else x) = (k, v) := if_pos hx
      rw [dictSet, if_pos hk, List.map_cons, hfx, dictLookup_cons]
      by_cases h : k' = k
      · simp [h]
      · have hkk' : k ≠ k' := fun hh => h hh.symm
        have hxk' : x.1 ≠ k' := by
          rw [hx]
          exact hkk'
        rw [if_neg hkk', if_neg h, dictLookup_map_setKey_ne h, dictLookup_cons,
          if_neg hxk']
    · rw [dictSet_cons_ne x l k v hx, dictLookup_cons, dictLookup_cons]
      by_cases hx' : x.1 = k'
      · have h : k' ≠ k := fun hh => hx (hx' ▸ hh)
        simp [hx', h]
      · simp only [if_neg hx']
        exact ih

theorem keysOf_dictSet (l : List (Nat × α)) (k : Nat) (v : α) :
    keysOf (dictSet l k v) =
      if dictHasKey l k then keysOf l else keysOf l ++ [k] := by
  by_cases h : dictHasKey l k = true
  · rw [dictSet, if_pos h, if_pos h]
    simp only [keysOf, List.map_map]
    refine List.map_congr_left (fun kv _ => ?_)
    by_cases hkv : kv.1 = k <;> simp [hkv]
  · have h' : dictHasKey l k = false := by
      cases hh : dictHasKey l k
      · rfl
      · exact absurd hh h
    rw [dictSet, if_neg h, h']
    simp [keysOf]

theorem nodup_keysOf_dictSet {l : List (Nat × α)} {k : Nat} {v : α}
    (h : (keysOf l).Nodup) : (keysOf (dictSet l k v)).Nodup := by
  rw [keysOf_dictSet]
  cases hk : dictHasKey l k
  · simp only [Bool.false_eq_true, if_false]
    have hnot : k ∉ keysOf l := dictHasKey_eq_false_iff.mp hk
    simp [List.nodup_append, h, hnot]
  · simpa using h

theorem nodup_keysOf_dictMerge {r l : List (Nat × α)}
    (h : (keysOf l).Nodup) : (keysOf (dictMerge l r)).Nodup := by
  induction r generalizing l with
  | nil => exact h
  | cons kv r ih => exact ih (nodup_keysOf_dictSet h)

theorem dictLookup_dictMerge_of_not_mem {r l : List (Nat × α)} {k : Nat}
    (h : k ∉ keysOf r) : dictLookup (dictMerge l r) k = dictLookup l k := by
  induction r generalizing l with
  | nil => rfl
  | cons kv r ih =>
    simp only [keysOf, List.map_cons, List.mem_cons, not_or] at h
    have hstep : dictMerge l (kv :: r) = dictMerge (dictSet l kv.1 kv.2) r := rfl
    rw [hstep, ih h.2, dictLookup_dictSet, if_neg h.1]

theorem dictLookup_dictMerge_of_mem {r l : List (Nat × α)} {k : Nat}
    (hnd : (keysOf r).Nodup) (h : k ∈ keysOf r) :
    dictLookup (dictMerge l r) k = dictLookup r k := by
  induction r generalizing l with
  | nil => simp [keysOf] at h
  | cons kv r ih =>
    simp only [keysOf, List.map_cons, List.nodup_cons] at hnd
    simp only [keysOf, List.map_cons, List.mem_cons] at h
    have hstep : dictMerge l (kv :: r) = dictMerge (dictSet l kv.1 kv.2) r := rfl
    rw [hstep, dictLookup_cons]
    rcases h with h | h
    · have hk : k ∉ keysOf r := h ▸ hnd.1
      rw [dictLookup_dictMerge_of_not_mem hk, dictLookup_dictSet]
      simp [h]
    · have hk : kv.1 ≠ k := by
        rintro rfl
        exact hnd.1 h
      rw [ih hnd.2 h, if_neg hk]

theorem mem_edgeInsert {es : List Edge} {e x : Edge} :
    x ∈ edgeInsert es e ↔ x ∈ es ∨ x = e := by
  rw [edgeInsert]
  by_cases h : e ∈ es
  · simp only [if_pos h]
    constructor
    · exact Or.inl
    · rintro (hx | rfl)
      · exact hx
      · exact h
  · simp [if_neg h]

theorem nodup_edgeInsert {es : List Edge} {e : Edge} (h : es.Nodup) :
    (edgeInsert es e).Nodup := by
  rw [edgeInsert]
  by_cases he : e ∈ es
  · simpa [if_pos he] using h
  · simp [if_neg he, List.nodup_append, h, he]

theorem mem_foldl_edgeInsert {r : List Edge} {es : List Edge} {x : Edge} :
    x ∈ r.foldl edgeInsert es ↔ x ∈ es ∨ x ∈ r := by
  induction r generalizing es with
  | nil => simp
  | cons e r ih =>
    simp only [List.foldl_cons, ih, mem_edgeInsert, List.mem_cons]
    tauto

theorem nodup_foldl_edgeInsert {r : List Edge} {es : List Edge} (h : es.Nodup) :
    (r.foldl edgeInsert es).Nodup := by
  induction r generalizing es with
  | nil => exact h
  | cons e r ih => exact ih (nodup_edgeInsert h)

theorem mem_spouseMarriages {t : FamilyTree} {sid mid : Nat} :
    mid ∈ spouseMarriages t sid ↔
      Edge.mk sid mid ∈ t.edges ∧ dictHasKey t.marriages mid = true := by
  simp only [spouseMarriages, List.mem_filterMap]
  constructor
  · rintro ⟨e, he, hcond⟩
    by_cases hc : (e.source == sid && dictHasKey t.marriages e.target) = true
    · rw [if_pos hc] at hcond
      simp only [Bool.and_eq_true, beq_iff_eq] at hc
      obtain ⟨hs, ht⟩ := hc
      obtain rfl : e.target = mid := Option.some.inj hcond
      obtain rfl : e.source = sid := hs
      exact ⟨by cases e; exact he, ht⟩
    · rw [if_neg hc] at hcond
      exact absurd hcond (by simp)
  · rintro ⟨he, hk⟩
    refine ⟨Edge.mk sid mid, he, ?_⟩
    simp [hk]

theorem reach_nodup (adj : Nat → List Nat) (fuel : Nat) :
    ∀ stack visited, visited.Nodup → (reach adj fuel stack visited).Nodup := by
  induction fuel with
  | zero => intro stack visited h; exact h
  | succ f ih =>
    intro stack visited h
    cases stack with
    | nil => exact h
    | cons x stack =>
      rw [reach]
      by_cases hx : x ∈ visited
      · rw [if_pos hx]
        exact ih _ _ h
      · rw [if_neg hx]
        refine ih _ _ ?_
        simp [List.nodup_append, h, hx]

/-! ### Claim theorems -/

/-- Two spouses share a marriage: some stored marriage has spouse→marriage
edges from both of them. -/
def hasCommonMarriage (t : FamilyTree) (s1 s2 : Nat) : Prop :=
  ∃ km ∈ t.marriages, Edge.mk s1 km.1 ∈ t.edges ∧ Edge.mk s2 km.1 ∈ t.edges

instance (t : FamilyTree) (s1 s2 : Nat) : Decidable (hasCommonMarriage t s1 s2) :=
  inferInstanceAs (Decidable (∃ km ∈ t.marriages, _ ∧ _))

/-- A four-person graph with two marriages: persons 1,2 are the spouses of
marriage 10, persons 3,4 the spouses of marriage 11. -/
def exTwoMarriages : FamilyTree :=
  { people :=
      [(1, ⟨"A", Gender.MALE, 1950, none⟩), (2, ⟨"B", Gender.FEMALE, 1952, none⟩),
        (3, ⟨"C", Gender.MALE, 1980, none⟩), (4, ⟨"D", Gender.FEMALE, 1981, none⟩)]
    marriages := [(10, ⟨[]⟩), (11, ⟨[]⟩)]
    edges := [⟨1, 10⟩, ⟨2, 10⟩, ⟨3, 11⟩, ⟨4, 11⟩] }

/-- C1: the claim says `update_marriage(s1, s2, children)` replaces the
children of the first marriage that both `s1` and `s2` belong to and returns
that marriage.  In the source the generator expression captures the loop
variable `marriage`, so the code instead rewrites the children of the first
marriage in dict order.  Here spouses 3 and 4 belong only to marriage 11,
yet the call rewrites marriage 10's children and leaves 11 untouched. -/
theorem C1_update_marriage_clobbers_first_stored_marriage :
    (Edge.mk 3 11 ∈ exTwoMarriages.edges ∧ Edge.mk 4 11 ∈ exTwoMarriages.edges ∧
      Edge.mk 3 10 ∉ exTwoMarriages.edges ∧ Edge.mk 4 10 ∉ exTwoMarriages.edges) ∧
    (exTwoMarriages.update_marriage 3 4 (some [99])).2 = some ⟨[99]⟩ ∧
    dictLookup (exTwoMarriages.update_marriage 3 4 (some [99])).1.marriages 10 =
      some ⟨[99]⟩ ∧
    dictLookup (exTwoMarriages.update_marriage 3 4 (some [99])).1.marriages 11 =
      some ⟨[]⟩ := by
  decide

/-- C2: when the two spouse ids share no common marriage, `update_marriage`
returns an absent result, raises nothing, and leaves the graph unchanged. -/
theorem C2_update_marriage_no_common_marriage_noop
    (t : FamilyTree) (s1 s2 : Nat) (children : Option (List Nat))
    (h : ¬ hasCommonMarriage t s1 s2) :
    t.update_marriage s1 s2 children = (t, none) := by
  have hany :
      (spouseMarriages t s1).any (fun mid => decide (mid ∈ spouseMarriages t s2)) =
        false := by
    rw [List.any_eq_false]
    intro mid hmid
    simp only [decide_eq_true_eq]
    intro hmid2
    obtain ⟨he1, hk⟩ := mem_spouseMarriages.mp hmid
    obtain ⟨he2, _⟩ := mem_spouseMarriages.mp hmid2
    obtain ⟨km, hkm, rfl⟩ :
        ∃ km ∈ t.marriages, km.1 = mid := by
      have := dictHasKey_iff.mp hk
      simpa [keysOf, List.mem_map] using this
    exact h ⟨km, hkm, he1, he2⟩
  rw [FamilyTree.update_marriage]
  cases hm : t.marriages with
  | nil => rfl
  | cons m0 ms =>
    simp only [hany, Bool.false_eq_true, if_false]

/-- Witness for C2 on a concrete graph: spouses 1 and 4 share no marriage. -/
theorem C2_witness :
    exTwoMarriages.update_marriage 1 4 (some [7]) = (exTwoMarriages, none) :=
  C2_update_marriage_no_common_marriage_noop exTwoMarriages 1 4 (some [7])
    (by decide)

/-- C7: the connectivity check is true on the empty graph, true on a graph
with a single person and nothing else, false for two unconnected people, and
true again after `create_marriage` joins those two people. -/
theorem C7_connected_basic_cases (k1 k2 mid : Nat) (p p1 p2 : Person)
    (h12 : k1 ≠ k2) (hm1 : mid ≠ k1) (hm2 : mid ≠ k2) :
    (FamilyTree.mk [] [] []).connected = true ∧
    (FamilyTree.mk [(k1, p)] [] []).connected = true ∧
    (FamilyTree.mk [(k1, p1), (k2, p2)] [] []).connected = false ∧
    ((FamilyTree.mk [(k1, p1), (k2, p2)] [] []).create_marriage k1 k2 none
        mid).1.connected = true := by
  have h21 : k2 ≠ k1 := Ne.symm h12
  have h1m : k1 ≠ mid := Ne.symm hm1
  have h2m : k2 ≠ mid := Ne.symm hm2
  refine ⟨rfl, rfl, ?_, ?_⟩
  · simp [FamilyTree.connected, FamilyTree.visitedList, FamilyTree.nodes, dictMerge,
      FamilyTree.fuelBound, FamilyTree.allIds, FamilyTree.neighbors, reach,
      List.dedup_cons_of_not_mem, h12]
  · simp [FamilyTree.connected, FamilyTree.visitedList, FamilyTree.nodes, dictMerge,
      FamilyTree.fuelBound, FamilyTree.allIds, FamilyTree.neighbors, reach,
      FamilyTree.create_marriage, dictSet, dictHasKey, edgeInsert,
      List.dedup_cons_of_not_mem, List.dedup_cons_of_mem,
      h12, h21, hm1, hm2, h1m, h2m]

/-- Witness for C7 with persons 1 and 2 and marriage id 3. -/
theorem C7_witness :
    (FamilyTree.mk [] [] []).connected = true ∧
    (FamilyTree.mk [(1, ⟨"A", Gender.MALE, 1950, none⟩)] [] []).connected = true ∧
    (FamilyTree.mk [(1, ⟨"A", Gender.MALE, 1950, none⟩),
        (2, ⟨"B", Gender.FEMALE, 1952, none⟩)] [] []).connected = false ∧
    ((FamilyTree.mk [(1, ⟨"A", Gender.MALE, 1950, none⟩),
        (2, ⟨"B", Gender.FEMALE, 1952, none⟩)] [] []).create_marriage 1 2 none
        3).1.connected = true :=
  C7_connected_basic_cases 1 2 3 ⟨"A", Gender.MALE, 1950, none⟩
    ⟨"A", Gender.MALE, 1950, none⟩ ⟨"B", Gender.FEMALE, 1952, none⟩
    (by decide) (by decide) (by decide)

theorem dictHasKey_dictErase_self (l : List (Nat × α)) (k : Nat) :
    dictHasKey (dictErase l k) k = false := by
  rw [dictHasKey_eq_false_iff]
  simp only [keysOf, dictErase, List.mem_map, List.mem_filter, bne_iff_ne]
  rintro ⟨kv, ⟨_, hne⟩, rfl⟩
  exact hne rfl

theorem dictHasKey_map_fst (l : List (Nat × α)) (g : Nat × α → β) (k : Nat) :
    dictHasKey (l.map (fun kv => (kv.1, g kv))) k = dictHasKey l k := by
  induction l with
  | nil => rfl
  | cons x l ih =>
    simp only [dictHasKey] at ih ⊢
    simp [List.any_cons, ih]

/-- C3: deleting a stored node removes it from its owning collection, prunes
every edge touching it and every occurrence in a children list, and a second
deletion of the same id fails with NotFound. -/
theorem C3_delete_node_cascades (t : FamilyTree) (nid : Nat)
    (hmem : dictHasKey t.people nid = true ∨ dictHasKey t.marriages nid = true)
    (hdisj : ¬(dictHasKey t.people nid = true ∧ dictHasKey t.marriages nid = true)) :
    ∃ t', t.delete_node nid = Except.ok t' ∧
      dictHasKey t'.people nid = false ∧
      dictHasKey t'.marriages nid = false ∧
      (∀ e ∈ t'.edges, e.source ≠ nid ∧ e.target ≠ nid) ∧
      (∀ km ∈ t'.marriages, nid ∉ km.2.children) ∧
      t'.delete_node nid = Except.error Err.NotFound := by
  by_cases hp : dictHasKey t.people nid = true
  · have hm : dictHasKey t.marriages nid = false := by
      cases hmm : dictHasKey t.marriages nid
      · rfl
      · exact absurd ⟨hp, hmm⟩ hdisj
    refine ⟨pruneAfterDelete { t with people := dictErase t.people nid } nid,
      ?_, ?_, ?_, ?_, ?_, ?_⟩
    · rw [FamilyTree.delete_node, if_pos hp]
    · exact dictHasKey_dictErase_self _ _
    · show dictHasKey (t.marriages.map _) nid = false
      rw [dictHasKey_map_fst]
      exact hm
    · intro e he
      obtain ⟨-, hcond⟩ := List.mem_filter.mp he
      rw [decide_eq_true_eq] at hcond
      push_neg at hcond
      exact ⟨fun hh => hcond.1 hh.symm, fun hh => hcond.2 hh.symm⟩
    · intro km hkm
      obtain ⟨kv, _, rfl⟩ := List.mem_map.mp hkm
      simp [List.mem_filter]
    · rw [FamilyTree.delete_node]
      rw [if_neg (by simp only [pruneAfterDelete]; simp [dictHasKey_dictErase_self]),
        if_neg (by simp only [pruneAfterDelete, dictHasKey_map_fst]; simp [hm])]
  · have hm : dictHasKey t.marriages nid = true := hmem.resolve_left hp
    have hp' : dictHasKey t.people nid = false := by
      cases hpp : dictHasKey t.people nid
      · rfl
      · exact absurd hpp hp
    refine ⟨pruneAfterDelete { t with marriages := dictErase t.marriages nid } nid,
      ?_, ?_, ?_, ?_, ?_, ?_⟩
    · rw [FamilyTree.delete_node, if_neg hp, if_pos hm]
    · exact hp'
    · show dictHasKey ((dictErase t.marriages nid).map _) nid = false
      rw [dictHasKey_map_fst]
      exact dictHasKey_dictErase_self _ _
    · intro e he
      obtain ⟨-, hcond⟩ := List.mem_filter.mp he
      rw [decide_eq_true_eq] at hcond
      push_neg at hcond
      exact ⟨fun hh => hcond.1 hh.symm, fun hh => hcond.2 hh.symm⟩
    · intro km hkm
      obtain ⟨kv, _, rfl⟩ := List.mem_map.mp hkm
      simp [List.mem_filter]
    · rw [FamilyTree.delete_node]
      rw [if_neg (by simp only [pruneAfterDelete]; simp [hp']),
        if_neg (by
          show ¬(dictHasKey ((dictErase t.marriages nid).map _) nid = true)
          rw [dictHasKey_map_fst]
          simp [dictHasKey_dictErase_self])]

/-- Witness for C3: delete person 3 from the two-marriage example graph. -/
theorem C3_witness :
    ∃ t', exTwoMarriages.delete_node 3 = Except.ok t' ∧
      dictHasKey t'.people 3 = false ∧
      dictHasKey t'.marriages 3 = false ∧
      (∀ e ∈ t'.edges, e.source ≠ 3 ∧ e.target ≠ 3) ∧
      (∀ km ∈ t'.marriages, 3 ∉ km.2.children) ∧
      t'.delete_node 3 = Except.error Err.NotFound :=
  C3_delete_node_cascades exTwoMarriages 3 (by decide) (by decide)

theorem find?_append_of_eq_none {l₁ l₂ : List α} {p : α → Bool}
    (h : l₁.find? p = none) : (l₁ ++ l₂).find? p = l₂.find? p := by
  induction l₁ with
  | nil => simp
  | cons x l ih =>
    cases hx : p x with
    | true => simp [List.find?, hx] at h
    | false =>
      simp only [List.find?, hx] at h
      simp only [List.cons_append, List.find?, hx]
      exact ih h

/-- C4: `create_person` deduplicates on an exact four-field match: with a
match it returns the stored person and inserts nothing; without one it
inserts exactly one entry; and in either case an immediately repeated call
with identical arguments returns the same person and changes nothing. -/
theorem C4_create_person_idempotent (t : FamilyTree) (n : String) (g : Gender)
    (b : Int) (d : Option Int) (fresh1 fresh2 : Nat)
    (hfresh : dictHasKey t.people fresh1 = false) :
    (∀ kp, t.people.find? (fun kp => personMatches n g b d kp.2) = some kp →
      t.create_person n g b d fresh1 = (t, kp.2)) ∧
    (t.people.find? (fun kp => personMatches n g b d kp.2) = none →
      (t.create_person n g b d fresh1).1.people.length = t.people.length + 1) ∧
    (t.create_person n g b d fresh1).1.create_person n g b d fresh2 =
      ((t.create_person n g b d fresh1).1, (t.create_person n g b d fresh1).2) := by
  have hset : dictSet t.people fresh1 ⟨n, g, b, d⟩ =
      t.people ++ [(fresh1, (⟨n, g, b, d⟩ : Person))] := by
    simp [dictSet, hfresh]
  refine ⟨?_, ?_, ?_⟩
  · intro kp hkp
    simp only [FamilyTree.create_person, hkp]
  · intro hnone
    simp only [FamilyTree.create_person, hnone, hset]
    simp
  · cases hfind : t.people.find? (fun kp => personMatches n g b d kp.2) with
    | some kp =>
      simp only [FamilyTree.create_person, hfind]
    | none =>
      have hm : personMatches n g b d ⟨n, g, b, d⟩ = true := by
        simp [personMatches]
      have hfind2 :
          (t.people ++ [(fresh1, (⟨n, g, b, d⟩ : Person))]).find?
              (fun kp => personMatches n g b d kp.2) =
            some (fresh1, ⟨n, g, b, d⟩) := by
        rw [find?_append_of_eq_none hfind]
        simp [List.find?, hm]
      simp only [FamilyTree.create_person, hfind, hset, hfind2]

/-- Witness for C4: two identical creations starting from an empty graph. -/
theorem C4_witness :
    (∀ kp, (FamilyTree.mk [] [] []).people.find?
        (fun kp => personMatches "A" Gender.MALE 1950 none kp.2) = some kp →
      (FamilyTree.mk [] [] []).create_person "A" Gender.MALE 1950 none 1 =
        (FamilyTree.mk [] [] [], kp.2)) ∧
    ((FamilyTree.mk [] [] []).people.find?
        (fun kp => personMatches "A" Gender.MALE 1950 none kp.2) = none →
      ((FamilyTree.mk [] [] []).create_person "A" Gender.MALE 1950
          none 1).1.people.length = (FamilyTree.mk [] [] []).people.length + 1) ∧
    ((FamilyTree.mk [] [] []).create_person "A" Gender.MALE 1950
        none 1).1.create_person "A" Gender.MALE 1950 none 2 =
      (((FamilyTree.mk [] [] []).create_person "A" Gender.MALE 1950 none 1).1,
        ((FamilyTree.mk [] [] []).create_person "A" Gender.MALE 1950 none 1).2) :=
  C4_create_person_idempotent (FamilyTree.mk [] [] []) "A" Gender.MALE 1950 none
    1 2 (by decide)

/-- C5: merge is last-write-wins per identifier for people and marriages,
keeps the receiver's entries for identifiers absent from `other`, and unions
the edge sets with structural duplicates collapsed. -/
theorem C5_merge_last_write_wins (t o : FamilyTree)
    (hp : (keysOf o.people).Nodup) (hm : (keysOf o.marriages).Nodup)
    (he : t.edges.Nodup) :
    (∀ k, k ∈ keysOf o.people →
      dictLookup (t.merge o).people k = dictLookup o.people k) ∧
    (∀ k, k ∉ keysOf o.people →
      dictLookup (t.merge o).people k = dictLookup t.people k) ∧
    (∀ k, k ∈ keysOf o.marriages →
      dictLookup (t.merge o).marriages k = dictLookup o.marriages k) ∧
    (∀ k, k ∉ keysOf o.marriages →
      dictLookup (t.merge o).marriages k = dictLookup t.marriages k) ∧
    (∀ e, e ∈ (t.merge o).edges ↔ e ∈ t.edges ∨ e ∈ o.edges) ∧
    (t.merge o).edges.Nodup :=
  ⟨fun _ hk => dictLookup_dictMerge_of_mem hp hk,
    fun _ hk => dictLookup_dictMerge_of_not_mem hk,
    fun _ hk => dictLookup_dictMerge_of_mem hm hk,
    fun _ hk => dictLookup_dictMerge_of_not_mem hk,
    fun _ => mem_foldl_edgeInsert,
    nodup_foldl_edgeInsert he⟩

/-- A second small graph (one person, one childless marriage) used as the
`other` side of the merge witness; person 1 collides with `exTwoMarriages`. -/
def exOther : FamilyTree :=
  { people := [(1, ⟨"A2", Gender.OTHER, 1960, some 2020⟩), (5, ⟨"E", Gender.MALE, 1990, none⟩)]
    marriages := [(12, ⟨[5]⟩)]
    edges := [⟨1, 10⟩, ⟨1, 12⟩] }

/-- Witness for C5: merge `exOther` into the two-marriage example graph. -/
theorem C5_witness :
    (∀ k, k ∈ keysOf exOther.people →
      dictLookup (exTwoMarriages.merge exOther).people k =
        dictLookup exOther.people k) ∧
    (∀ k, k ∉ keysOf exOther.people →
      dictLookup (exTwoMarriages.merge exOther).people k =
        dictLookup exTwoMarriages.people k) ∧
    (∀ k, k ∈ keysOf exOther.marriages →
      dictLookup (exTwoMarriages.merge exOther).marriages k =
        dictLookup exOther.marriages k) ∧
    (∀ k, k ∉ keysOf exOther.marriages →
      dictLookup (exTwoMarriages.merge exOther).marriages k =
        dictLookup exTwoMarriages.marriages k) ∧
    (∀ e, e ∈ (exTwoMarriages.merge exOther).edges ↔
      e ∈ exTwoMarriages.edges ∨ e ∈ exOther.edges) ∧
    (exTwoMarriages.merge exOther).edges.Nodup :=
  C5_merge_last_write_wins exTwoMarriages exOther (by decide) (by decide)
    (by decide)

/-- C8: through `update_person` with an explicit person id, a falsy value for
an updatable field (gender `None`; birth year `None` or `0`; death year
`None` or `0`) leaves that field at its prior value; in particular the birth
year can never be set to `0` and a present death year can never be reset to
absent along this path. -/
theorem C8_update_person_falsy_means_unset (t : FamilyTree) (nm : String)
    (pid : Nat) (p : Person) (g? : Option Gender) (b? d? : Option Int)
    (hp : dictLookup t.people pid = some p) :
    ∃ t' p', t.update_person nm g? b? d? (some pid) = Except.ok (t', p') ∧
      (g? = none → p'.gender = p.gender) ∧
      ((b? = none ∨ b? = some 0) → p'.birth_year = p.birth_year) ∧
      ((d? = none ∨ d? = some 0) → p'.death_year = p.death_year) ∧
      (p.birth_year ≠ 0 → p'.birth_year ≠ 0) ∧
      (p.death_year.isSome → p'.death_year.isSome) := by
  have heq : t.update_person nm g? b? d? (some pid) =
      Except.ok ({ t with people := dictSet t.people pid (updateFields p g? b? d?) },
        updateFields p g? b? d?) := by
    simp only [FamilyTree.update_person, hp]
  refine ⟨_, _, heq, ?_, ?_, ?_, ?_, ?_⟩
  · rintro rfl
    simp [updateFields, orFalsyGender]
  · rintro (rfl | rfl) <;> simp [updateFields, orFalsyInt]
  · rintro (rfl | rfl) <;> simp [updateFields, orFalsyOptInt]
  · intro h
    cases b? with
    | none => simpa [updateFields, orFalsyInt] using h
    | some x =>
      by_cases hx : x = 0
      · simpa [updateFields, orFalsyInt, hx] using h
      · simp [updateFields, orFalsyInt, hx]
  · intro h
    cases d? with
    | none => simpa [updateFields, orFalsyOptInt] using h
    | some x =>
      by_cases hx : x = 0
      · simpa [updateFields, orFalsyOptInt, hx] using h
      · simp [updateFields, orFalsyOptInt, hx]

/-- Witness for C8 on the example graph: updating person 1 with all-falsy
field values. -/
theorem C8_witness :
    ∃ t' p', exTwoMarriages.update_person "A" none (some 0) none (some 1) =
        Except.ok (t', p') ∧
      ((none : Option Gender) = none →
        p'.gender = Person.gender ⟨"A", Gender.MALE, 1950, none⟩) ∧
      (((some 0 : Option Int) = none ∨ (some 0 : Option Int) = some 0) →
        p'.birth_year = Person.birth_year ⟨"A", Gender.MALE, 1950, none⟩) ∧
      (((none : Option Int) = none ∨ (none : Option Int) = some 0) →
        p'.death_year = Person.death_year ⟨"A", Gender.MALE, 1950, none⟩) ∧
      (Person.birth_year ⟨"A", Gender.MALE, 1950, none⟩ ≠ 0 →
        p'.birth_year ≠ 0) ∧
      ((Person.death_year ⟨"A", Gender.MALE, 1950, none⟩).isSome →
        p'.death_year.isSome) :=
  C8_update_person_falsy_means_unset exTwoMarriages "A" 1
    ⟨"A", Gender.MALE, 1950, none⟩ none (some 0) none (by decide)

/-- C9: `update_person` without a person id resolves by exact name match:
NotFound exactly when no person has the name, AmbiguousMatch exactly when
more than one does, and with a unique match it updates and returns that
person. -/
theorem C9_update_person_by_name (t : FamilyTree) (nm : String)
    (g? : Option Gender) (b? d? : Option Int) :
    (t.update_person nm g? b? d? none = Except.error Err.NotFound ↔
      t.people.filter (fun kp => kp.2.name == nm) = []) ∧
    (t.update_person nm g? b? d? none = Except.error Err.AmbiguousMatch ↔
      2 ≤ (t.people.filter (fun kp => kp.2.name == nm)).length) ∧
    (∀ kp, t.people.filter (fun kp => kp.2.name == nm) = [kp] →
      t.update_person nm g? b? d? none =
        Except.ok
          ({ t with people := dictSet t.people kp.1 (updateFields kp.2 g? b? d?) },
            updateFields kp.2 g? b? d?)) := by
  cases hf : t.people.filter (fun kp => kp.2.name == nm) with
  | nil =>
    refine ⟨by simp [FamilyTree.update_person, hf], by simp [FamilyTree.update_person, hf], ?_⟩
    intro kp hkp
    simp at hkp
  | cons kp0 rest =>
    cases rest with
    | nil =>
      refine ⟨by simp [FamilyTree.update_person, hf], by simp [FamilyTree.update_person, hf], ?_⟩
      intro kp hkp
      obtain rfl : kp0 = kp := by simpa using hkp
      simp [FamilyTree.update_person, hf]
    | cons kp1 rest2 =>
      refine ⟨by simp [FamilyTree.update_person, hf], ?_, ?_⟩
      · have hlen : 2 ≤ (kp0 :: kp1 :: rest2).length := by
          simp only [List.length_cons]
          omega
        simp [FamilyTree.update_person, hf, hlen]
      · intro kp hkp
        have hln := congrArg List.length hkp
        simp only [List.length_cons, List.length_nil] at hln
        omega

/-- Witness for C9 on the example graph: no person named "Z", a unique
person named "A". -/
theorem C9_witness :
    (exTwoMarriages.update_person "Z" none none none none =
        Except.error Err.NotFound ↔
      exTwoMarriages.people.filter (fun kp => kp.2.name == "Z") = []) ∧
    (exTwoMarriages.update_person "Z" none none none none =
        Except.error Err.AmbiguousMatch ↔
      2 ≤ (exTwoMarriages.people.filter (fun kp => kp.2.name == "Z")).length) ∧
    (∀ kp, exTwoMarriages.people.filter (fun kp => kp.2.name == "Z") = [kp] →
      exTwoMarriages.update_person "Z" none none none none =
        Except.ok
          ({ exTwoMarriages with
              people := dictSet exTwoMarriages.people kp.1
                (updateFields kp.2 none none none) },
            updateFields kp.2 none none none)) :=
  C9_update_person_by_name exTwoMarriages "Z" none none none

/-- The spec's gender rank: MALE < FEMALE < OTHER. -/
def specRank : Gender → Nat
  | Gender.MALE => 0
  | Gender.FEMALE => 1
  | Gender.OTHER => 2

/-- The spec's composite sort key: (gender rank, birth year, name),
compared lexicographically. -/
def specKey (p : Person) : Lex (Nat × Lex (Int × String)) :=
  toLex (specRank p.gender, toLex (p.birth_year, p.name))

/-- The source's tuple key and the spec's ranked key induce the same order. -/
theorem sortLe_iff_specLe (a b : Nat × Person) :
    sortLe a b ↔ specKey a.2 ≤ specKey b.2 := by
  rcases a with ⟨ka, pa⟩
  rcases b with ⟨kb, pb⟩
  cases hga : pa.gender <;> cases hgb : pb.gender <;>
    simp [sortLe, sortKey, specKey, specRank, hga, hgb, Prod.Lex.le_iff]

/-- C6: `sort` arranges the people entries ascending by the composite key
(gender rank MALE < FEMALE < OTHER, then birth year, then name) — no entry
strictly exceeds its successor — while keeping exactly the same entries, and
sorting twice gives the same result as sorting once. -/
theorem C6_sort_ascending_and_idempotent (t : FamilyTree) :
    List.Chain' (fun a b => specKey a.2 ≤ specKey b.2) (t.sort).people ∧
    (t.sort).people.Perm t.people ∧
    (t.sort).sort = t.sort := by
  refine ⟨?_, ?_, ?_⟩
  · have hs := List.sorted_insertionSort sortLe t.people
    exact (hs.chain').imp (fun a b h => (sortLe_iff_specLe a b).mp h)
  · exact List.perm_insertionSort sortLe t.people
  · have hid := List.Sorted.insertionSort_eq (List.sorted_insertionSort sortLe t.people)
    simp [FamilyTree.sort, hid]

/-- C10: in a non-empty graph whose traversal reaches some identifier `d`
that is not a stored node (a dangling edge endpoint or child reference),
`connected` returns false even when every stored node is reached, because it
compares the size of the visited set — which includes `d` — with the number
of stored nodes. -/
theorem C10_reachable_dangling_id_falsifies_connected (t : FamilyTree) (d : Nat)
    (hnp : (keysOf t.people).Nodup)
    (hnodes : t.nodes ≠ [])
    (hall : ∀ k ∈ keysOf t.nodes, k ∈ t.visitedList)
    (hd : d ∈ t.visitedList)
    (hdn : d ∉ keysOf t.nodes) :
    t.connected = false := by
  have h1 : (keysOf (t.people.map (fun kp => (kp.1, Node.person kp.2)))).Nodup := by
    simpa [keysOf, List.map_map, Function.comp] using hnp
  have hkeys : (keysOf t.nodes).Nodup := nodup_keysOf_dictMerge h1
  have hvn : t.visitedList.Nodup := by
    unfold FamilyTree.visitedList
    split
    · exact List.nodup_nil
    · exact reach_nodup _ _ _ _ List.nodup_nil
  have hsub : (d :: keysOf t.nodes) ⊆ t.visitedList := by
    intro x hx
    rcases List.mem_cons.mp hx with rfl | hx
    · exact hd
    · exact hall x hx
  have hnd : (d :: keysOf t.nodes).Nodup := List.nodup_cons.mpr ⟨hdn, hkeys⟩
  have hle := (hnd.subperm hsub).length_le
  have hmap : (keysOf t.nodes).length = t.nodes.length := List.length_map _ _
  simp only [List.length_cons] at hle
  have hlen : t.nodes.length < t.visitedList.length := by omega
  unfold FamilyTree.connected
  split
  · rename_i heq
    exact absurd heq hnodes
  · rw [beq_eq_false_iff_ne]
    omega

/-- A graph with a dangling spouse id: `create_marriage` links person 1 and
the non-existent id 2 to marriage 3 without validating either spouse. -/
def exDangling : FamilyTree :=
  ((FamilyTree.mk [(1, ⟨"A", Gender.MALE, 1950, none⟩)] [] []).create_marriage
    1 2 none 3).1

/-- Witness for C10: every stored node of `exDangling` is reached, the
dangling id 2 is reached as well, and `connected` is false. -/
theorem C10_witness : exDangling.connected = false :=
  C10_reachable_dangling_id_falsifies_connected exDangling 2 (by decide)
    (by decide) (by decide) (by decide) (by decide)

end Famtree
